/-
Verification of the z-radio signaling server and in-memory broadcast
registry (server/routes.ts, server/storage.ts, shared/schema.ts).

The embedding mirrors the TypeScript source:
  * `Broadcast` / `InsertBroadcast` follow shared/schema.ts
    (`insertBroadcastSchema` omits only `id` and `createdAt`, so
    `isActive`, `listenerCount`, `audioQuality` may be supplied by the
    caller and otherwise default via `??` in `createBroadcast`).
  * `MemStorage` is the class of server/storage.ts; its `Map` is an
    insertion-ordered association list, since `Array.from(map.values())`
    iterates insertion order and `map.set` on an existing key overwrites
    in place.
  * `ServerState` + `step` model the WebSocket relay of server/routes.ts:
    `rooms` is the `Map<string, Set<WebSocketWithSession>>`, a JS `Set`
    being an insertion-ordered duplicate-free list; `sessions` records the
    `ws.roomId` field of each connection; `openConns` records which
    connections have `readyState === OPEN`.  JS truthiness of
    `if (data.roomId)` / `if (ws.roomId)` makes the empty string act as
    absent, which the embedding keeps as explicit `rid = ""` guards.
Connections are identified by `Nat` handles (object identity of the `ws`
value; `ws.sessionId` is random and never read by any handler, so it is
not modelled).
-/
import Mathlib

namespace ZRadio

/-! ## Data model (shared/schema.ts) -/

/-- A broadcast record, as selected from the `broadcasts` table /
stored in `MemStorage.broadcasts`.  `createdAt` is a timestamp, modelled
as a `Nat`. -/
structure Broadcast where
  id : Nat
  roomId : String
  title : String
  isActive : Bool
  listenerCount : Nat
  audioQuality : String
  createdAt : Nat
  deriving Repr, DecidableEq

/-- The parse result of `insertBroadcastSchema` (schema minus `id` and
`createdAt`): columns with defaults are optional, so the caller may
supply `isActive`, `listenerCount` and `audioQuality`. -/
structure InsertBroadcast where
  roomId : String
  title : String
  isActive : Option Bool
  listenerCount : Option Nat
  audioQuality : Option String
  deriving Repr, DecidableEq

/-- A `Partial<Broadcast>` as taken by `updateBroadcast` (the PATCH
route passes `req.body` through unchecked, so every field — `id`
included — may be present). -/
structure BroadcastPatch where
  id : Option Nat
  roomId : Option String
  title : Option String
  isActive : Option Bool
  listenerCount : Option Nat
  audioQuality : Option String
  createdAt : Option Nat
  deriving Repr, DecidableEq

/-- The all-absent patch. -/
def BroadcastPatch.empty : BroadcastPatch :=
  ⟨none, none, none, none, none, none, none⟩

/-- The spread `{ ...broadcast, ...updates }`: every field present in the
patch overwrites the record's field. -/
def applyPatch (b : Broadcast) (p : BroadcastPatch) : Broadcast :=
  { id := p.id.getD b.id
    roomId := p.roomId.getD b.roomId
    title := p.title.getD b.title
    isActive := p.isActive.getD b.isActive
    listenerCount := p.listenerCount.getD b.listenerCount
    audioQuality := p.audioQuality.getD b.audioQuality
    createdAt := p.createdAt.getD b.createdAt }

/-! ## MemStorage (server/storage.ts)

The `Map<number, Broadcast>` is an insertion-ordered association list.
`Map.get` returns the value at the (first) matching key, `Map.set`
overwrites in place when the key exists and appends otherwise. -/

/-- `this.broadcasts.get(k)`. -/
def mapGet : List (Nat × Broadcast) → Nat → Option Broadcast
  | [], _ => none
  | (k', b) :: t, k => if k' = k then some b else mapGet t k

/-- `this.broadcasts.set(k, b)`: overwrite in place, else append. -/
def mapSet : List (Nat × Broadcast) → Nat → Broadcast → List (Nat × Broadcast)
  | [], k, b => [(k, b)]
  | (k', b') :: t, k, b => if k' = k then (k', b) :: t else (k', b') :: mapSet t k b

/-- The `MemStorage` class state (the `listeners` table is dead weight for
the relay — no route or handler calls the listener operations — so only
the broadcast side is modelled). -/
structure MemStorage where
  broadcasts : List (Nat × Broadcast)
  currentBroadcastId : Nat
  deriving Repr, DecidableEq

/-- `new MemStorage()`. -/
def MemStorage.empty : MemStorage := ⟨[], 1⟩

/-- `createBroadcast`: assigns `id = currentBroadcastId++`, applies the
`??` defaults, stores and returns the record.  `now` stands for
`new Date()`.  There is no duplicate-roomId check. -/
def MemStorage.createBroadcast (s : MemStorage) (ib : InsertBroadcast) (now : Nat) :
    Broadcast × MemStorage :=
  let id := s.currentBroadcastId
  let b : Broadcast :=
    { id := id
      roomId := ib.roomId
      title := ib.title
      isActive := ib.isActive.getD true
      listenerCount := ib.listenerCount.getD 0
      audioQuality := ib.audioQuality.getD "high"
      createdAt := now }
  (b, { broadcasts := mapSet s.broadcasts id b, currentBroadcastId := id + 1 })

/-- `getBroadcast`. -/
def MemStorage.getBroadcast (s : MemStorage) (id : Nat) : Option Broadcast :=
  mapGet s.broadcasts id

/-- `getBroadcastByRoomId`: `Array.from(values()).find(b => b.roomId === roomId)`,
i.e. the first record in insertion order with the given roomId. -/
def findByRoomId : List (Nat × Broadcast) → String → Option Broadcast
  | [], _ => none
  | (_, b) :: t, r => if b.roomId = r then some b else findByRoomId t r

def MemStorage.getBroadcastByRoomId (s : MemStorage) (roomId : String) : Option Broadcast :=
  findByRoomId s.broadcasts roomId

/-- `updateBroadcast`: shallow merge `{ ...broadcast, ...updates }`,
stored back under the *request's* id (not the merged record's id). -/
def MemStorage.updateBroadcast (s : MemStorage) (id : Nat) (p : BroadcastPatch) :
    Option Broadcast × MemStorage :=
  match mapGet s.broadcasts id with
  | none => (none, s)
  | some b =>
    let updated := applyPatch b p
    (some updated, { s with broadcasts := mapSet s.broadcasts id updated })

/-- `getActiveBroadcasts`. -/
def MemStorage.getActiveBroadcasts (s : MemStorage) : List Broadcast :=
  (s.broadcasts.map Prod.snd).filter (·.isActive)

/-- `updateListenerCount`: fetch by id; if present, set `listenerCount`
and store back (a no-op when the id is absent). -/
def updCount : List (Nat × Broadcast) → Nat → Nat → List (Nat × Broadcast)
  | [], _, _ => []
  | (k', b) :: t, k, n =>
    if k' = k then (k', { b with listenerCount := n }) :: t
    else (k', b) :: updCount t k n

def MemStorage.updateListenerCount (s : MemStorage) (broadcastId : Nat) (count : Nat) :
    MemStorage :=
  { s with broadcasts := updCount s.broadcasts broadcastId count }

/-! ## WebSocket messages (shared/schema.ts `WebSocketMessage`) -/

inductive MsgType
  | joinRoom | leaveRoom | offer | answer | iceCandidate | roomUpdate
  deriving Repr, DecidableEq

/-- The `data?: any` payload: the relay itself only ever constructs the
`{listenerCount, isActive}` object for `room-update`; inbound signaling
payloads are opaque blobs that are forwarded without inspection. -/
inductive MsgData
  | blob (payload : String)
  | update (listenerCount : Nat) (isActive : Bool)
  deriving Repr, DecidableEq

structure WsMessage where
  type : MsgType
  roomId : Option String
  data : Option MsgData
  sessionId : Option String
  deriving Repr, DecidableEq

/-- The `{ type: 'room-update', data: { listenerCount, isActive } }`
message built by the join/leave/close handlers. -/
def roomUpdateMsg (listenerCount : Nat) (isActive : Bool) : WsMessage :=
  ⟨.roomUpdate, none, some (.update listenerCount isActive), none⟩

/-! ## Relay state (server/routes.ts)

`rooms : Map<string, Set<WebSocketWithSession>>` — association list of
insertion-ordered duplicate-free member lists; `sessions` holds each
connection's `ws.roomId` property (assigned on join, never deleted);
`openConns` holds the handles whose `readyState === WebSocket.OPEN`. -/

structure ServerState where
  rooms : List (String × List Nat)
  sessions : List (Nat × String)
  openConns : List Nat
  storage : MemStorage
  deriving Repr, DecidableEq

def initialServer : ServerState := ⟨[], [], [], MemStorage.empty⟩

/-- JS `Set.add`: append unless already a member. -/
def setAdd (l : List Nat) (c : Nat) : List Nat :=
  if c ∈ l then l else l ++ [c]

/-- `rooms.has(rid)`. -/
def hasRoom : List (String × List Nat) → String → Bool
  | [], _ => false
  | (r, _) :: t, rid => if r = rid then true else hasRoom t rid

/-- `rooms.get(rid)`. -/
def roomGet : List (String × List Nat) → String → Option (List Nat)
  | [], _ => none
  | (r, l) :: t, rid => if r = rid then some l else roomGet t rid

/-- `rooms.get(rid)!.add(ws)` (mutates the set in place). -/
def addMem : List (String × List Nat) → String → Nat → List (String × List Nat)
  | [], _, _ => []
  | (r, l) :: t, rid, c =>
    if r = rid then (r, setAdd l c) :: t else (r, l) :: addMem t rid c

/-- `if (!rooms.has(rid)) rooms.set(rid, new Set()); rooms.get(rid)!.add(ws)`. -/
def roomsJoin (rs : List (String × List Nat)) (rid : String) (c : Nat) :
    List (String × List Nat) :=
  addMem (if hasRoom rs rid then rs else rs ++ [(rid, [])]) rid c

/-- `rooms.get(rid)!.delete(ws)`. -/
def roomsRemove : List (String × List Nat) → String → Nat → List (String × List Nat)
  | [], _, _ => []
  | (r, l) :: t, rid, c =>
    if r = rid then (r, l.erase c) :: t else (r, l) :: roomsRemove t rid c

/-- `ws.roomId` (absent until the first join is processed). -/
def sessGet : List (Nat × String) → Nat → Option String
  | [], _ => none
  | (c', r) :: t, c => if c' = c then some r else sessGet t c

/-- `ws.roomId = rid`. -/
def sessSet : List (Nat × String) → Nat → String → List (Nat × String)
  | [], c, rid => [(c, rid)]
  | (c', r') :: t, c, rid =>
    if c' = c then (c', rid) :: t else (c', r') :: sessSet t c rid

/-- `client.readyState === WebSocket.OPEN`. -/
def isOpen (s : ServerState) (c : Nat) : Bool := s.openConns.contains c

/-- `broadcastToRoom(roomId, message, excludeWs?)`: send the message to
every member of the room other than the excluded handle whose socket is
open.  The result is the list of `(recipient, message)` sends, in
iteration order. -/
def broadcastToRoom (s : ServerState) (rid : String) (m : WsMessage)
    (exclude : Option Nat) : List (Nat × WsMessage) :=
  match roomGet s.rooms rid with
  | none => []
  | some members =>
    (members.filter (fun x => exclude.all (fun e => x ≠ e) && isOpen s x)).map
      (fun x => (x, m))

/-! ## Message handlers -/

/-- The `case 'join-room'` branch.  `if (data.roomId)` is JS truthiness,
so an absent or empty roomId makes the whole branch a no-op. -/
def joinRoomCase (s : ServerState) (c : Nat) (m : WsMessage) :
    ServerState × List (Nat × WsMessage) :=
  match m.roomId with
  | none => (s, [])
  | some rid =>
    if rid = "" then (s, [])
    else
      let sessions := sessSet s.sessions c rid
      let rooms := roomsJoin s.rooms rid c
      match s.storage.getBroadcastByRoomId rid with
      | some b =>
        let listenerCount := ((roomGet rooms rid).getD []).length
        let storage := s.storage.updateListenerCount b.id listenerCount
        let s' : ServerState := { s with sessions := sessions, rooms := rooms,
                                         storage := storage }
        (s', broadcastToRoom s' rid (roomUpdateMsg listenerCount b.isActive) none)
      | none => ({ s with sessions := sessions, rooms := rooms }, [])

/-- The `case 'leave-room'` branch: guarded by
`if (ws.roomId && rooms.has(ws.roomId))`; deletes the sender from the
set, then refreshes the listener count and announces, when a broadcast
record exists for the room.  `ws.roomId` is *not* cleared. -/
def leaveRoomCase (s : ServerState) (c : Nat) :
    ServerState × List (Nat × WsMessage) :=
  match sessGet s.sessions c with
  | none => (s, [])
  | some rid =>
    if rid = "" then (s, [])
    else if hasRoom s.rooms rid then
      let rooms := roomsRemove s.rooms rid c
      match s.storage.getBroadcastByRoomId rid with
      | some b =>
        let listenerCount := ((roomGet rooms rid).getD []).length
        let storage := s.storage.updateListenerCount b.id listenerCount
        let s' : ServerState := { s with rooms := rooms, storage := storage }
        (s', broadcastToRoom s' rid (roomUpdateMsg listenerCount b.isActive) none)
      | none => ({ s with rooms := rooms }, [])
    else (s, [])

/-- The `ws.on('close')` handler body — textually the same block as the
`leave-room` case in the source, transcribed separately so that their
agreement is a theorem rather than an assumption. -/
def closeCase (s : ServerState) (c : Nat) :
    ServerState × List (Nat × WsMessage) :=
  match sessGet s.sessions c with
  | none => (s, [])
  | some rid =>
    if rid = "" then (s, [])
    else if hasRoom s.rooms rid then
      let rooms := roomsRemove s.rooms rid c
      match s.storage.getBroadcastByRoomId rid with
      | some b =>
        let listenerCount := ((roomGet rooms rid).getD []).length
        let storage := s.storage.updateListenerCount b.id listenerCount
        let s' : ServerState := { s with rooms := rooms, storage := storage }
        (s', broadcastToRoom s' rid (roomUpdateMsg listenerCount b.isActive) none)
      | none => ({ s with rooms := rooms }, [])
    else (s, [])

/-- The `case 'offer' / 'answer' / 'ice-candidate'` branch: forward the
parsed message itself, excluding the sender. -/
def signalCase (s : ServerState) (c : Nat) (m : WsMessage) :
    ServerState × List (Nat × WsMessage) :=
  match sessGet s.sessions c with
  | none => (s, [])
  | some rid =>
    if rid = "" then (s, [])
    else (s, broadcastToRoom s rid m (some c))

/-- The `switch (data.type)` dispatch of the message handler.  A
`room-update` arriving from a client hits no case and is dropped. -/
def handleMessage (s : ServerState) (c : Nat) (m : WsMessage) :
    ServerState × List (Nat × WsMessage) :=
  match m.type with
  | .joinRoom => joinRoomCase s c m
  | .leaveRoom => leaveRoomCase s c
  | .offer => signalCase s c m
  | .answer => signalCase s c m
  | .iceCandidate => signalCase s c m
  | .roomUpdate => (s, [])

/-! ## Events and runs -/

inductive Event
  | connect (c : Nat)
  | message (c : Nat) (m : WsMessage)
  | close (c : Nat)
  | create (ib : InsertBroadcast) (now : Nat)
  deriving Repr, DecidableEq

/-- One event: a connection opening (`wss.on('connection')`), an inbound
message, a socket closing (readyState leaves OPEN, then the `'close'`
handler runs), or a `POST /api/broadcasts` reaching the storage. -/
def step (s : ServerState) (e : Event) : ServerState × List (Nat × WsMessage) :=
  match e with
  | .connect c => ({ s with openConns := setAdd s.openConns c }, [])
  | .message c m => handleMessage s c m
  | .close c => closeCase { s with openConns := s.openConns.erase c } c
  | .create ib now => ({ s with storage := (s.storage.createBroadcast ib now).2 }, [])

def runFrom (s : ServerState) : List Event → ServerState
  | [] => s
  | e :: es => runFrom (step s e).1 es

/-- The state after processing a sequence of events from server start. -/
def run (es : List Event) : ServerState := runFrom initialServer es

/-- The membership set of a room (`[]` when the room has no entry, so its
length is the spec's `size(roomId)`, "0 if the room has no entry"). -/
def roomMembers (s : ServerState) (rid : String) : List Nat :=
  (roomGet s.rooms rid).getD []

/-! ## Boolean state invariants

These hold in every state reachable by normal operation and are the
frame hypotheses of the general theorems; each is decidable so that the
theorems can be instantiated on concrete runs. -/

/-- Duplicate-freeness of a member list (automatic for a JS `Set`). -/
def nodupB : List Nat → Bool
  | [] => true
  | x :: t => !t.contains x && nodupB t

/-- Every room's member list is duplicate-free. -/
def roomSetsNodup (rs : List (String × List Nat)) : Bool :=
  rs.all (fun p => nodupB p.2)

/-- Every assigned `ws.roomId` has a `rooms` entry (joins create the
entry and entries are never pruned). -/
def sessionsHaveRooms (s : ServerState) : Bool :=
  s.sessions.all (fun p => hasRoom s.rooms p.2)

/-- The storage map's keys are distinct. -/
def keysNodup : List (Nat × Broadcast) → Bool
  | [] => true
  | (k, _) :: t => !(t.any (fun q => q.1 = k)) && keysNodup t

/-- Every stored record sits under its own id as key (as `createBroadcast`
arranges; only a PATCH whose body carries an `id` field can break it). -/
def wellKeyed (bs : List (Nat × Broadcast)) : Bool :=
  bs.all (fun q => q.1 = q.2.id)

def storageOk (s : MemStorage) : Bool :=
  keysNodup s.broadcasts && wellKeyed s.broadcasts

/-! ## Trace predicates -/

/-- The room, if any, whose membership and listener count a single event
concerns: the (truthy) `roomId` of a `join-room`, or the sender's current
`ws.roomId` for a `leave-room` or a socket closure. -/
def eventRoom (s : ServerState) : Event → Option String
  | .message c m =>
    match m.type with
    | .joinRoom =>
      match m.roomId with
      | some rid => if rid = "" then none else some rid
      | none => none
    | .leaveRoom =>
      match sessGet s.sessions c with
      | some rid => if rid = "" then none else some rid
      | none => none
    | _ => none
  | .close c =>
    match sessGet s.sessions c with
    | some rid => if rid = "" then none else some rid
    | none => none
  | _ => none

/-- The joining connection sits in no *other* room's membership set (the
state of affairs after any discipline that leaves a room before joining
the next one). -/
def inNoOtherRoom (rs : List (String × List Nat)) (rid : String) (c : Nat) : Bool :=
  rs.all (fun p => p.1 = rid || !(p.2.contains c))

/-- An event is safe when it is not a `join-room` issued by a connection
that is still a member of a different room. -/
def safeEvent (s : ServerState) : Event → Bool
  | .message c m =>
    match m.type with
    | .joinRoom =>
      match m.roomId with
      | some rid => inNoOtherRoom s.rooms rid c
      | none => true
    | _ => true
  | _ => true

/-- Every event of the trace is safe in the state it is handled in. -/
def safeRun : ServerState → List Event → Bool
  | _, [] => true
  | s, e :: es => safeEvent s e && safeRun (step s e).1 es

/-- No connection handle is a member of two distinct rooms' sets. -/
def atMostOneRoomL (rs : List (String × List Nat)) : Prop :=
  ∀ c r₁ r₂ l₁ l₂, roomGet rs r₁ = some l₁ → roomGet rs r₂ = some l₂ →
    c ∈ l₁ → c ∈ l₂ → r₁ = r₂

/-! ## Association-list lemmas -/

theorem setAdd_mem {l : List Nat} {c x : Nat} :
    x ∈ setAdd l c ↔ x ∈ l ∨ x = c := by
  unfold setAdd
  split
  · next h => exact ⟨fun hx => Or.inl hx, fun hx => hx.elim id (fun he => he ▸ h)⟩
  · simp

theorem setAdd_mem_self {l : List Nat} {c : Nat} : c ∈ setAdd l c :=
  setAdd_mem.mpr (Or.inr rfl)

theorem setAdd_of_mem {l : List Nat} {c : Nat} (h : c ∈ l) : setAdd l c = l := by
  unfold setAdd; simp [h]

theorem sessGet_sessSet_same (l : List (Nat × String)) (c : Nat) (r : String) :
    sessGet (sessSet l c r) c = some r := by
  induction l with
  | nil => simp [sessSet, sessGet]
  | cons p t ih =>
    obtain ⟨c', r'⟩ := p
    by_cases h : c' = c <;> simp [sessSet, sessGet, h, ih]

theorem sessSet_idem (l : List (Nat × String)) (c : Nat) (r : String) :
    sessSet (sessSet l c r) c r = sessSet l c r := by
  induction l with
  | nil => simp [sessSet]
  | cons p t ih =>
    obtain ⟨c', r'⟩ := p
    by_cases h : c' = c <;> simp [sessSet, h, ih]

theorem sessGet_mem {l : List (Nat × String)} {c : Nat} {r : String}
    (h : sessGet l c = some r) : (c, r) ∈ l := by
  induction l with
  | nil => simp [sessGet] at h
  | cons p t ih =>
    obtain ⟨c', r'⟩ := p
    by_cases hc : c' = c
    · subst hc
      simp [sessGet] at h
      subst h
      exact List.mem_cons_self _ _
    · simp [sessGet, hc] at h
      exact List.mem_cons_of_mem _ (ih h)

theorem mapGet_mapSet_same (bs : List (Nat × Broadcast)) (k : Nat) (b : Broadcast) :
    mapGet (mapSet bs k b) k = some b := by
  induction bs with
  | nil => simp [mapSet, mapGet]
  | cons p t ih =>
    obtain ⟨k', b'⟩ := p
    by_cases h : k' = k <;> simp [mapSet, mapGet, h, ih]

theorem roomGet_mem {rs : List (String × List Nat)} {r : String} {l : List Nat}
    (h : roomGet rs r = some l) : (r, l) ∈ rs := by
  induction rs with
  | nil => simp [roomGet] at h
  | cons p t ih =>
    obtain ⟨r', l'⟩ := p
    by_cases hr : r' = r
    · subst hr
      simp [roomGet] at h
      subst h
      exact List.mem_cons_self _ _
    · simp [roomGet, hr] at h
      exact List.mem_cons_of_mem _ (ih h)

theorem hasRoom_iff {rs : List (String × List Nat)} {r : String} :
    hasRoom rs r = true ↔ (roomGet rs r).isSome := by
  induction rs with
  | nil => simp [hasRoom, roomGet]
  | cons p t ih =>
    obtain ⟨r', l'⟩ := p
    by_cases hr : r' = r <;> simp [hasRoom, roomGet, hr, ← ih]

theorem roomGet_addMem_same (rs : List (String × List Nat)) (rid : String) (c : Nat) :
    roomGet (addMem rs rid c) rid = (roomGet rs rid).map (fun l => setAdd l c) := by
  induction rs with
  | nil => simp [addMem, roomGet]
  | cons p t ih =>
    obtain ⟨r', l'⟩ := p
    by_cases hr : r' = rid <;> simp [addMem, roomGet, hr, ih]

theorem roomGet_addMem_other (rs : List (String × List Nat)) {rid r : String} (c : Nat)
    (h : r ≠ rid) : roomGet (addMem rs rid c) r = roomGet rs r := by
  induction rs with
  | nil => simp [addMem]
  | cons p t ih =>
    obtain ⟨r', l'⟩ := p
    by_cases hr : r' = rid
    · subst hr
      simp [addMem, roomGet, Ne.symm h]
    · by_cases hr2 : r' = r <;> simp [addMem, roomGet, hr, hr2, h, ih]

theorem roomGet_append_new (rs : List (String × List Nat)) (rid : String)
    (h : hasRoom rs rid = false) :
    roomGet (rs ++ [(rid, [])]) rid = some [] := by
  induction rs with
  | nil => simp [roomGet]
  | cons p t ih =>
    obtain ⟨r', l'⟩ := p
    by_cases hr : r' = rid
    · simp [hasRoom, hr] at h
    · simp only [hasRoom, hr, if_false] at h
      simp [roomGet, hr, ih h]

theorem roomGet_append_other (rs : List (String × List Nat)) {rid r : String}
    (h : r ≠ rid) : roomGet (rs ++ [(rid, [])]) r = roomGet rs r := by
  induction rs with
  | nil =>
    simp only [List.nil_append, roomGet]
    rw [if_neg (Ne.symm h)]
  | cons p t ih =>
    obtain ⟨r', l'⟩ := p
    by_cases hr : r' = r <;> simp [roomGet, hr, ih]

theorem roomGet_none_of_hasRoom_false {rs : List (String × List Nat)} {rid : String}
    (h : hasRoom rs rid = false) : roomGet rs rid = none := by
  cases hg : roomGet rs rid with
  | none => rfl
  | some l =>
    have h2 : hasRoom rs rid = true := hasRoom_iff.mpr (by rw [hg]; rfl)
    rw [h2] at h
    simp at h

theorem roomGet_roomsJoin_same (rs : List (String × List Nat)) (rid : String) (c : Nat) :
    roomGet (roomsJoin rs rid c) rid = some (setAdd ((roomGet rs rid).getD []) c) := by
  unfold roomsJoin
  by_cases h : hasRoom rs rid = true
  · rw [h]
    simp only [if_true]
    rw [roomGet_addMem_same]
    rcases Option.isSome_iff_exists.mp (hasRoom_iff.mp h) with ⟨l, hl⟩
    simp [hl]
  · have hf : hasRoom rs rid = false := by simpa using h
    rw [hf]
    simp only [Bool.false_eq_true, if_false]
    rw [roomGet_addMem_same, roomGet_append_new rs rid hf,
      roomGet_none_of_hasRoom_false hf]
    simp

theorem roomGet_roomsJoin_other (rs : List (String × List Nat)) {rid r : String} (c : Nat)
    (h : r ≠ rid) : roomGet (roomsJoin rs rid c) r = roomGet rs r := by
  unfold roomsJoin
  by_cases hh : hasRoom rs rid = true
  · rw [hh]
    simp only [if_true]
    exact roomGet_addMem_other rs c h
  · have hf : hasRoom rs rid = false := by simpa using hh
    rw [hf]
    simp only [Bool.false_eq_true, if_false]
    rw [roomGet_addMem_other _ c h, roomGet_append_other rs h]

theorem roomGet_roomsRemove_same (rs : List (String × List Nat)) (rid : String) (c : Nat) :
    roomGet (roomsRemove rs rid c) rid = (roomGet rs rid).map (fun l => l.erase c) := by
  induction rs with
  | nil => simp [roomsRemove, roomGet]
  | cons p t ih =>
    obtain ⟨r', l'⟩ := p
    by_cases hr : r' = rid <;> simp [roomsRemove, roomGet, hr, ih]

theorem roomGet_roomsRemove_other (rs : List (String × List Nat)) {rid r : String} (c : Nat)
    (h : r ≠ rid) : roomGet (roomsRemove rs rid c) r = roomGet rs r := by
  induction rs with
  | nil => simp [roomsRemove]
  | cons p t ih =>
    obtain ⟨r', l'⟩ := p
    by_cases hr : r' = rid
    · subst hr
      simp [roomsRemove, roomGet, Ne.symm h]
    · by_cases hr2 : r' = r <;> simp [roomsRemove, roomGet, hr, hr2, h, ih]

theorem addMem_of_mem {rs : List (String × List Nat)} {rid : String} {c : Nat}
    {l : List Nat} (hg : roomGet rs rid = some l) (hc : c ∈ l) :
    addMem rs rid c = rs := by
  induction rs with
  | nil => simp [roomGet] at hg
  | cons p t ih =>
    obtain ⟨r', l'⟩ := p
    by_cases hr : r' = rid
    · subst hr
      simp [roomGet] at hg
      subst hg
      simp [addMem, setAdd_of_mem hc]
    · simp [roomGet, hr] at hg
      simp [addMem, hr, ih hg]

theorem roomsJoin_idem (rs : List (String × List Nat)) (rid : String) (c : Nat) :
    roomsJoin (roomsJoin rs rid c) rid c = roomsJoin rs rid c := by
  have hg := roomGet_roomsJoin_same rs rid c
  have hh : hasRoom (roomsJoin rs rid c) rid = true :=
    hasRoom_iff.mpr (by simp [hg])
  show addMem (if hasRoom (roomsJoin rs rid c) rid = true then roomsJoin rs rid c
      else roomsJoin rs rid c ++ [(rid, [])]) rid c = roomsJoin rs rid c
  rw [hh]
  simp only [if_true]
  exact addMem_of_mem hg setAdd_mem_self

/-! ## Storage lemmas -/

theorem findByRoomId_mem {bs : List (Nat × Broadcast)} {rid : String} {b : Broadcast}
    (h : findByRoomId bs rid = some b) : ∃ k, (k, b) ∈ bs := by
  induction bs with
  | nil => simp [findByRoomId] at h
  | cons p t ih =>
    obtain ⟨k', b'⟩ := p
    by_cases hr : b'.roomId = rid
    · simp [findByRoomId, hr] at h
      exact ⟨k', by simp [h]⟩
    · simp [findByRoomId, hr] at h
      rcases ih h with ⟨k, hk⟩
      exact ⟨k, List.mem_cons_of_mem _ hk⟩

/-- `updateListenerCount` touches only the `listenerCount` of the (first)
record keyed by `b.id`; under the storage invariants that record is
exactly the one `getBroadcastByRoomId` returned, so the lookup afterwards
sees the refreshed count. -/
theorem findByRoomId_updCount_ok {bs : List (Nat × Broadcast)} {rid : String}
    {b : Broadcast} (n : Nat)
    (hnd : keysNodup bs = true) (hwk : wellKeyed bs = true)
    (h : findByRoomId bs rid = some b) :
    findByRoomId (updCount bs b.id n) rid = some { b with listenerCount := n } := by
  induction bs with
  | nil => simp [findByRoomId] at h
  | cons p t ih =>
    obtain ⟨k', b'⟩ := p
    have hk' : k' = b'.id := by
      have := (List.all_eq_true.mp hwk) (k', b') (List.mem_cons_self _ _)
      simpa using this
    have hany : (t.any (fun q => q.1 = k')) = false := by
      simp only [keysNodup, Bool.and_eq_true, Bool.not_eq_true'] at hnd
      exact hnd.1
    have hndt : keysNodup t = true := by
      simp only [keysNodup, Bool.and_eq_true] at hnd
      exact hnd.2
    have hwkt : wellKeyed t = true := by
      simp only [wellKeyed, List.all_cons, Bool.and_eq_true] at hwk
      exact hwk.2
    by_cases hr : b'.roomId = rid
    · simp only [findByRoomId, hr, if_true, Option.some.injEq] at h
      subst h
      simp [updCount, hk', findByRoomId, hr]
    · simp only [findByRoomId, hr, if_false] at h
      have hne : k' ≠ b.id := by
        rcases findByRoomId_mem h with ⟨k, hk⟩
        have hkid : k = b.id := by
          have := (List.all_eq_true.mp hwkt) (k, b) hk
          simpa using this
        subst hkid
        intro he
        have : (t.any (fun q => q.1 = k')) = true :=
          List.any_eq_true.mpr ⟨(b.id, b), hk, by simp [he]⟩
        rw [this] at hany
        cases hany
      simp [updCount, hne, findByRoomId, hr, ih hndt hwkt h]

theorem updCount_idem (bs : List (Nat × Broadcast)) (k n : Nat) :
    updCount (updCount bs k n) k n = updCount bs k n := by
  induction bs with
  | nil => simp [updCount]
  | cons p t ih =>
    obtain ⟨k', b'⟩ := p
    by_cases hk : k' = k <;> simp [updCount, hk, ih]

/-- Without any invariant, `updateListenerCount` can change the looked-up
record's `listenerCount` but nothing else: the subsequent lookup yields
either the same record or its count-refreshed copy. -/
theorem findByRoomId_updCount_general (bs : List (Nat × Broadcast)) (k n : Nat)
    {rid : String} {b : Broadcast} (h : findByRoomId bs rid = some b) :
    findByRoomId (updCount bs k n) rid = some b ∨
      findByRoomId (updCount bs k n) rid = some { b with listenerCount := n } := by
  induction bs with
  | nil => simp [findByRoomId] at h
  | cons p t ih =>
    obtain ⟨k', b'⟩ := p
    by_cases hk : k' = k
    · by_cases hr : b'.roomId = rid
      · simp only [findByRoomId, hr, if_true, Option.some.injEq] at h
        subst h
        right
        simp [updCount, hk, findByRoomId, hr]
      · simp only [findByRoomId, hr, if_false] at h
        left
        simp [updCount, hk, findByRoomId, hr, h]
    · by_cases hr : b'.roomId = rid
      · simp only [findByRoomId, hr, if_true, Option.some.injEq] at h
        subst h
        left
        simp [updCount, hk, findByRoomId, hr]
      · simp only [findByRoomId, hr, if_false] at h
        rcases ih h with h2 | h2
        · left
          simp [updCount, hk, findByRoomId, hr, h2]
        · right
          simp [updCount, hk, findByRoomId, hr, h2]

/-! ## Handler equation lemmas -/

theorem joinRoomCase_found {s : ServerState} {c : Nat} {rid : String}
    {d : Option MsgData} {sid : Option String} {b : Broadcast} (hne : rid ≠ "")
    (hb : s.storage.getBroadcastByRoomId rid = some b) :
    joinRoomCase s c ⟨.joinRoom, some rid, d, sid⟩ =
      ({ s with sessions := sessSet s.sessions c rid,
                rooms := roomsJoin s.rooms rid c,
                storage := s.storage.updateListenerCount b.id
                  ((roomGet (roomsJoin s.rooms rid c) rid).getD []).length },
       broadcastToRoom
         { s with sessions := sessSet s.sessions c rid,
                  rooms := roomsJoin s.rooms rid c,
                  storage := s.storage.updateListenerCount b.id
                    ((roomGet (roomsJoin s.rooms rid c) rid).getD []).length }
         rid
         (roomUpdateMsg ((roomGet (roomsJoin s.rooms rid c) rid).getD []).length b.isActive)
         none) := by
  simp only [joinRoomCase]
  rw [if_neg hne, hb]

theorem joinRoomCase_notfound {s : ServerState} {c : Nat} {rid : String}
    {d : Option MsgData} {sid : Option String} (hne : rid ≠ "")
    (hb : s.storage.getBroadcastByRoomId rid = none) :
    joinRoomCase s c ⟨.joinRoom, some rid, d, sid⟩ =
      ({ s with sessions := sessSet s.sessions c rid,
                rooms := roomsJoin s.rooms rid c }, []) := by
  simp only [joinRoomCase]
  rw [if_neg hne, hb]

theorem leaveRoomCase_nosess {s : ServerState} {c : Nat}
    (h : sessGet s.sessions c = none) : leaveRoomCase s c = (s, []) := by
  simp only [leaveRoomCase]
  rw [h]

theorem leaveRoomCase_noroom {s : ServerState} {c : Nat} {rid : String}
    (h : sessGet s.sessions c = some rid) (hne : rid ≠ "")
    (hr : hasRoom s.rooms rid = false) : leaveRoomCase s c = (s, []) := by
  simp only [leaveRoomCase]
  rw [h]
  simp only [if_neg hne, hr, Bool.false_eq_true, if_false]

theorem leaveRoomCase_found {s : ServerState} {c : Nat} {rid : String} {b : Broadcast}
    (h : sessGet s.sessions c = some rid) (hne : rid ≠ "")
    (hr : hasRoom s.rooms rid = true)
    (hb : s.storage.getBroadcastByRoomId rid = some b) :
    leaveRoomCase s c =
      ({ s with rooms := roomsRemove s.rooms rid c,
                storage := s.storage.updateListenerCount b.id
                  ((roomGet (roomsRemove s.rooms rid c) rid).getD []).length },
       broadcastToRoom
         { s with rooms := roomsRemove s.rooms rid c,
                  storage := s.storage.updateListenerCount b.id
                    ((roomGet (roomsRemove s.rooms rid c) rid).getD []).length }
         rid
         (roomUpdateMsg ((roomGet (roomsRemove s.rooms rid c) rid).getD []).length
           b.isActive)
         none) := by
  simp only [leaveRoomCase]
  rw [h]
  simp only [if_neg hne, hr, if_true]
  rw [hb]

theorem leaveRoomCase_notfound {s : ServerState} {c : Nat} {rid : String}
    (h : sessGet s.sessions c = some rid) (hne : rid ≠ "")
    (hr : hasRoom s.rooms rid = true)
    (hb : s.storage.getBroadcastByRoomId rid = none) :
    leaveRoomCase s c = ({ s with rooms := roomsRemove s.rooms rid c }, []) := by
  simp only [leaveRoomCase]
  rw [h]
  simp only [if_neg hne, hr, if_true]
  rw [hb]

theorem closeCase_nosess {s : ServerState} {c : Nat}
    (h : sessGet s.sessions c = none) : closeCase s c = (s, []) := by
  simp only [closeCase]
  rw [h]

theorem closeCase_noroom {s : ServerState} {c : Nat} {rid : String}
    (h : sessGet s.sessions c = some rid) (hne : rid ≠ "")
    (hr : hasRoom s.rooms rid = false) : closeCase s c = (s, []) := by
  simp only [closeCase]
  rw [h]
  simp only [if_neg hne, hr, Bool.false_eq_true, if_false]

theorem closeCase_found {s : ServerState} {c : Nat} {rid : String} {b : Broadcast}
    (h : sessGet s.sessions c = some rid) (hne : rid ≠ "")
    (hr : hasRoom s.rooms rid = true)
    (hb : s.storage.getBroadcastByRoomId rid = some b) :
    closeCase s c =
      ({ s with rooms := roomsRemove s.rooms rid c,
                storage := s.storage.updateListenerCount b.id
                  ((roomGet (roomsRemove s.rooms rid c) rid).getD []).length },
       broadcastToRoom
         { s with rooms := roomsRemove s.rooms rid c,
                  storage := s.storage.updateListenerCount b.id
                    ((roomGet (roomsRemove s.rooms rid c) rid).getD []).length }
         rid
         (roomUpdateMsg ((roomGet (roomsRemove s.rooms rid c) rid).getD []).length
           b.isActive)
         none) := by
  simp only [closeCase]
  rw [h]
  simp only [if_neg hne, hr, if_true]
  rw [hb]

theorem closeCase_notfound {s : ServerState} {c : Nat} {rid : String}
    (h : sessGet s.sessions c = some rid) (hne : rid ≠ "")
    (hr : hasRoom s.rooms rid = true)
    (hb : s.storage.getBroadcastByRoomId rid = none) :
    closeCase s c = ({ s with rooms := roomsRemove s.rooms rid c }, []) := by
  simp only [closeCase]
  rw [h]
  simp only [if_neg hne, hr, if_true]
  rw [hb]

theorem signalCase_state (s : ServerState) (c : Nat) (m : WsMessage) :
    (signalCase s c m).1 = s := by
  simp only [signalCase]
  cases sessGet s.sessions c with
  | none => rfl
  | some rid =>
    by_cases h : rid = "" <;> simp [h]

theorem signalCase_sends {s : ServerState} {c : Nat} {rid : String} (m : WsMessage)
    (h : sessGet s.sessions c = some rid) (hne : rid ≠ "") :
    (signalCase s c m).2 = broadcastToRoom s rid m (some c) := by
  simp only [signalCase]
  rw [h]
  simp [hne]

/-! ## Preservation of the at-most-one-room invariant on safe traces -/

theorem atMostOneRoomL_roomsJoin {rs : List (String × List Nat)} {rid : String} {c : Nat}
    (ha : atMostOneRoomL rs) (hs : inNoOtherRoom rs rid c = true) :
    atMostOneRoomL (roomsJoin rs rid c) := by
  have notElsewhere : ∀ r l, roomGet rs r = some l → r ≠ rid → c ∉ l := by
    intro r l hg hne hc
    have h : (decide (r = rid) || !(l.contains c)) = true :=
      (List.all_eq_true.mp hs) (r, l) (roomGet_mem hg)
    rw [Bool.or_eq_true] at h
    rcases h with h1 | h1
    · exact hne (of_decide_eq_true h1)
    · have h2 : l.contains c = true := List.elem_iff.mpr hc
      rw [h2] at h1
      cases h1
  intro x r₁ r₂ l₁ l₂ h₁ h₂ m₁ m₂
  by_cases e₁ : r₁ = rid <;> by_cases e₂ : r₂ = rid
  · rw [e₁, e₂]
  · exfalso
    rw [e₁] at h₁
    rw [roomGet_roomsJoin_same] at h₁
    rw [roomGet_roomsJoin_other _ _ e₂] at h₂
    injection h₁ with h₁
    rw [← h₁] at m₁
    rcases setAdd_mem.mp m₁ with hx | hx
    · cases hg : roomGet rs rid with
      | none => rw [hg] at hx; cases hx
      | some l₀ =>
        rw [hg] at hx
        exact e₂ (ha x rid r₂ l₀ l₂ hg h₂ hx m₂).symm
    · subst hx
      exact notElsewhere r₂ l₂ h₂ e₂ m₂
  · exfalso
    rw [e₂] at h₂
    rw [roomGet_roomsJoin_same] at h₂
    rw [roomGet_roomsJoin_other _ _ e₁] at h₁
    injection h₂ with h₂
    rw [← h₂] at m₂
    rcases setAdd_mem.mp m₂ with hx | hx
    · cases hg : roomGet rs rid with
      | none => rw [hg] at hx; cases hx
      | some l₀ =>
        rw [hg] at hx
        exact e₁ (ha x r₁ rid l₁ l₀ h₁ hg m₁ hx)
    · subst hx
      exact notElsewhere r₁ l₁ h₁ e₁ m₁
  · rw [roomGet_roomsJoin_other _ _ e₁] at h₁
    rw [roomGet_roomsJoin_other _ _ e₂] at h₂
    exact ha x r₁ r₂ l₁ l₂ h₁ h₂ m₁ m₂

theorem atMostOneRoomL_roomsRemove {rs : List (String × List Nat)}
    (ha : atMostOneRoomL rs) (rid : String) (c : Nat) :
    atMostOneRoomL (roomsRemove rs rid c) := by
  intro x r₁ r₂ l₁ l₂ h₁ h₂ m₁ m₂
  have g : ∀ r l, roomGet (roomsRemove rs rid c) r = some l → x ∈ l →
      ∃ l₀, roomGet rs r = some l₀ ∧ x ∈ l₀ := by
    intro r l h hx
    by_cases e : r = rid
    · subst e
      rw [roomGet_roomsRemove_same] at h
      cases hg : roomGet rs r with
      | none => rw [hg] at h; cases h
      | some l₀ =>
        rw [hg] at h
        injection h with h
        rw [← h] at hx
        exact ⟨l₀, rfl, List.mem_of_mem_erase hx⟩
    · rw [roomGet_roomsRemove_other _ _ e] at h
      exact ⟨l, h, hx⟩
  rcases g r₁ l₁ h₁ m₁ with ⟨l₁', hg₁, hx₁⟩
  rcases g r₂ l₂ h₂ m₂ with ⟨l₂', hg₂, hx₂⟩
  exact ha x r₁ r₂ l₁' l₂' hg₁ hg₂ hx₁ hx₂

/-- The rooms table after one step is the old table, a `roomsJoin` of it
(join), or a `roomsRemove` of it (leave/close). -/
theorem step_rooms_cases (s : ServerState) (e : Event) :
    (step s e).1.rooms = s.rooms ∨
      (∃ rid c, safeEvent s e = inNoOtherRoom s.rooms rid c ∧
        (step s e).1.rooms = roomsJoin s.rooms rid c) ∨
      (∃ rid c, (step s e).1.rooms = roomsRemove s.rooms rid c) := by
  cases e with
  | connect c => exact Or.inl rfl
  | create ib now => exact Or.inl rfl
  | message c m =>
    obtain ⟨ty, rI, d, sid⟩ := m
    cases ty with
    | joinRoom =>
      cases rI with
      | none => exact Or.inl rfl
      | some rid =>
        by_cases hne : rid = ""
        · subst hne
          exact Or.inl rfl
        · refine Or.inr (Or.inl ⟨rid, c, rfl, ?_⟩)
          have hd : step s (.message c ⟨.joinRoom, some rid, d, sid⟩) =
              joinRoomCase s c ⟨.joinRoom, some rid, d, sid⟩ := rfl
          rw [hd]
          cases hb : s.storage.getBroadcastByRoomId rid with
          | none => rw [joinRoomCase_notfound hne hb]
          | some b => rw [joinRoomCase_found hne hb]
    | leaveRoom =>
      have hd : step s (.message c ⟨.leaveRoom, rI, d, sid⟩) = leaveRoomCase s c := rfl
      rw [hd]
      cases hg : sessGet s.sessions c with
      | none => rw [leaveRoomCase_nosess hg]; exact Or.inl rfl
      | some rid =>
        by_cases hne : rid = ""
        · subst hne
          rw [show leaveRoomCase s c = (s, []) from by
            simp only [leaveRoomCase]; rw [hg]; simp]
          exact Or.inl rfl
        · by_cases hr : hasRoom s.rooms rid = true
          · refine Or.inr (Or.inr ⟨rid, c, ?_⟩)
            cases hb : s.storage.getBroadcastByRoomId rid with
            | none => rw [leaveRoomCase_notfound hg hne hr hb]
            | some b => rw [leaveRoomCase_found hg hne hr hb]
          · rw [leaveRoomCase_noroom hg hne (by simpa using hr)]
            exact Or.inl rfl
    | offer =>
      exact Or.inl (congrArg ServerState.rooms (signalCase_state s c ⟨.offer, rI, d, sid⟩))
    | answer =>
      exact Or.inl (congrArg ServerState.rooms (signalCase_state s c ⟨.answer, rI, d, sid⟩))
    | iceCandidate =>
      exact Or.inl
        (congrArg ServerState.rooms (signalCase_state s c ⟨.iceCandidate, rI, d, sid⟩))
    | roomUpdate => exact Or.inl rfl
  | close c =>
    have hd : step s (.close c) = closeCase { s with openConns := s.openConns.erase c } c :=
      rfl
    rw [hd]
    cases hg : sessGet s.sessions c with
    | none =>
      rw [closeCase_nosess (s := { s with openConns := s.openConns.erase c }) hg]
      exact Or.inl rfl
    | some rid =>
      by_cases hne : rid = ""
      · subst hne
        rw [show closeCase { s with openConns := s.openConns.erase c } c =
            ({ s with openConns := s.openConns.erase c }, []) from by
          simp only [closeCase]; rw [hg]; simp]
        exact Or.inl rfl
      · by_cases hr : hasRoom s.rooms rid = true
        · refine Or.inr (Or.inr ⟨rid, c, ?_⟩)
          cases hb : s.storage.getBroadcastByRoomId rid with
          | none =>
            rw [closeCase_notfound (s := { s with openConns := s.openConns.erase c })
              hg hne hr hb]
          | some b =>
            rw [closeCase_found (s := { s with openConns := s.openConns.erase c })
              hg hne hr hb]
        · rw [closeCase_noroom (s := { s with openConns := s.openConns.erase c })
            hg hne (by simpa using hr)]
          exact Or.inl rfl

theorem atMostOneRoomL_step {s : ServerState} {e : Event}
    (ha : atMostOneRoomL s.rooms) (hs : safeEvent s e = true) :
    atMostOneRoomL (step s e).1.rooms := by
  rcases step_rooms_cases s e with h | ⟨rid, c, hsafe, h⟩ | ⟨rid, c, h⟩
  · rw [h]; exact ha
  · rw [h]
    exact atMostOneRoomL_roomsJoin ha (hsafe ▸ hs)
  · rw [h]
    exact atMostOneRoomL_roomsRemove ha rid c

theorem atMostOneRoomL_runFrom (es : List Event) (s : ServerState)
    (ha : atMostOneRoomL s.rooms) (hs : safeRun s es = true) :
    atMostOneRoomL (runFrom s es).rooms := by
  induction es generalizing s with
  | nil => exact ha
  | cons e t ih =>
    simp only [safeRun, Bool.and_eq_true] at hs
    exact ih (step s e).1 (atMostOneRoomL_step ha hs.1) hs.2

/-! ## Further helper lemmas -/

theorem nodupB_iff {l : List Nat} : nodupB l = true ↔ l.Nodup := by
  induction l with
  | nil => simp [nodupB]
  | cons x t ih =>
    rw [List.nodup_cons, ← ih]
    simp only [nodupB, Bool.and_eq_true, Bool.not_eq_true']
    constructor
    · rintro ⟨h1, h2⟩
      refine ⟨fun hm => ?_, h2⟩
      have h1' : t.elem x = false := h1
      rw [List.elem_iff.mpr hm] at h1'
      cases h1'
    · rintro ⟨h1, h2⟩
      refine ⟨?_, h2⟩
      cases hc : t.contains x
      · rfl
      · exact absurd (List.elem_iff.mp hc) h1

theorem roomSetsNodup_get {rs : List (String × List Nat)}
    (h : roomSetsNodup rs = true) {r : String} {l : List Nat}
    (hg : roomGet rs r = some l) : l.Nodup :=
  nodupB_iff.mp ((List.all_eq_true.mp h) (r, l) (roomGet_mem hg))

theorem contains_erase_ne {l : List Nat} {x c : Nat} (h : x ≠ c) :
    (l.erase c).contains x = l.contains x := by
  cases hc : l.contains x
  · have hn : x ∉ l := by
      intro hm
      have h' : l.elem x = false := hc
      rw [List.elem_iff.mpr hm] at h'
      cases h'
    cases hc2 : (l.erase c).contains x
    · rfl
    · exact absurd (List.mem_of_mem_erase (List.elem_iff.mp hc2)) hn
  · exact List.elem_iff.mpr ((List.mem_erase_of_ne h).mpr (List.elem_iff.mp hc))

theorem updateListenerCount_idem (st : MemStorage) (k n : Nat) :
    (st.updateListenerCount k n).updateListenerCount k n = st.updateListenerCount k n := by
  simp [MemStorage.updateListenerCount, updCount_idem]

/-- Neither the `leave-room` handler nor the close handler ever touches
`ws.roomId`: the session table is invariant. -/
theorem leaveRoomCase_sessions (s : ServerState) (c : Nat) :
    (leaveRoomCase s c).1.sessions = s.sessions := by
  cases hg : sessGet s.sessions c with
  | none => rw [leaveRoomCase_nosess hg]
  | some rid =>
    by_cases hne : rid = ""
    · subst hne
      rw [show leaveRoomCase s c = (s, []) from by
        simp only [leaveRoomCase]; rw [hg]; simp]
    · by_cases hr : hasRoom s.rooms rid = true
      · cases hb : s.storage.getBroadcastByRoomId rid with
        | none => rw [leaveRoomCase_notfound hg hne hr hb]
        | some b => rw [leaveRoomCase_found hg hne hr hb]
      · rw [leaveRoomCase_noroom hg hne (by simpa using hr)]

theorem closeCase_sessions (s : ServerState) (c : Nat) :
    (closeCase s c).1.sessions = s.sessions := by
  cases hg : sessGet s.sessions c with
  | none => rw [closeCase_nosess hg]
  | some rid =>
    by_cases hne : rid = ""
    · subst hne
      rw [show closeCase s c = (s, []) from by
        simp only [closeCase]; rw [hg]; simp]
    · by_cases hr : hasRoom s.rooms rid = true
      · cases hb : s.storage.getBroadcastByRoomId rid with
        | none => rw [closeCase_notfound hg hne hr hb]
        | some b => rw [closeCase_found hg hne hr hb]
      · rw [closeCase_noroom hg hne (by simpa using hr)]

/-- Completeness of the fan-out: every open member other than the
excluded sender receives the message. -/
theorem broadcastToRoom_mem {s : ServerState} {rid : String} (m : WsMessage) (c : Nat)
    {x : Nat} (hx : x ∈ roomMembers s rid) (hne : x ≠ c) (ho : isOpen s x = true) :
    (x, m) ∈ broadcastToRoom s rid m (some c) := by
  unfold broadcastToRoom
  cases hg : roomGet s.rooms rid with
  | none =>
    rw [roomMembers, hg] at hx
    cases hx
  | some members =>
    rw [roomMembers, hg] at hx
    refine List.mem_map.mpr ⟨x, List.mem_filter.mpr ⟨hx, ?_⟩, rfl⟩
    simp [Option.all, hne, ho]

/-- Soundness of the fan-out: everything sent goes to a member other
than the excluded sender, and carries the message unmodified. -/
theorem broadcastToRoom_sound {s : ServerState} {rid : String} {m : WsMessage} {c : Nat}
    {p : Nat × WsMessage} (hp : p ∈ broadcastToRoom s rid m (some c)) :
    p.1 ≠ c ∧ p.2 = m ∧ p.1 ∈ roomMembers s rid := by
  unfold broadcastToRoom at hp
  cases hg : roomGet s.rooms rid with
  | none =>
    rw [hg] at hp
    cases hp
  | some members =>
    rw [hg] at hp
    rcases List.mem_map.mp hp with ⟨x, hx, he⟩
    rcases List.mem_filter.mp hx with ⟨hmem, hcond⟩
    subst he
    rw [Bool.and_eq_true] at hcond
    refine ⟨?_, rfl, ?_⟩
    · have := hcond.1
      simp only [Option.all] at this
      exact of_decide_eq_true this
    · rw [roomMembers, hg]
      exact hmem

/-- Fan-out only looks at the rooms table and the open-status of the
room's members. -/
theorem broadcastToRoom_congr_open (s₁ s₂ : ServerState) (rid : String) (m : WsMessage)
    (ex : Option Nat) (hr : s₁.rooms = s₂.rooms)
    (ho : ∀ x, x ∈ roomMembers s₁ rid → isOpen s₁ x = isOpen s₂ x) :
    broadcastToRoom s₁ rid m ex = broadcastToRoom s₂ rid m ex := by
  unfold broadcastToRoom
  rw [← hr]
  cases hg : roomGet s₁.rooms rid with
  | none => rfl
  | some members =>
    have he : members.filter (fun x => ex.all (fun e => x ≠ e) && isOpen s₁ x) =
        members.filter (fun x => ex.all (fun e => x ≠ e) && isOpen s₂ x) := by
      apply List.filter_congr
      intro x hx
      rw [ho x (by rw [roomMembers, hg]; exact hx)]
    exact congrArg (List.map (fun x => (x, m))) he

/-! ## Claim theorems -/

/-- Claim C1: `MemStorage.createBroadcast` performs no duplicate-roomId
check.  Creating twice with roomId `"abc123"` succeeds both times: the
second call returns a fresh record with the same roomId and the registry
afterwards holds two records whose roomId is `"abc123"`.  No
`DuplicateRoom`/`Conflict` error exists on this path, although the
database schema declares `room_id` unique. -/
theorem createBroadcast_accepts_duplicate_roomId :
    (((MemStorage.empty.createBroadcast ⟨"abc123", "first", none, none, none⟩ 0).2
        ).createBroadcast ⟨"abc123", "second", none, none, none⟩ 1).1.roomId = "abc123" ∧
    (((MemStorage.empty.createBroadcast ⟨"abc123", "first", none, none, none⟩ 0).2
        ).createBroadcast ⟨"abc123", "second", none, none, none⟩ 1).1.id = 2 ∧
    (((((MemStorage.empty.createBroadcast ⟨"abc123", "first", none, none, none⟩ 0).2
        ).createBroadcast ⟨"abc123", "second", none, none, none⟩ 1).2.broadcasts.map
          Prod.snd).filter (fun b => b.roomId = "abc123")).length = 2 := by
  decide

/-- Claim C2, counterexample: from a fresh server, `connect 1`,
`join-room "a"`, `join-room "b"` reaches a state where connection 1 is a
member of both rooms' sets — the `join-room` handler never removes the
connection from its previous room. -/
theorem join_second_room_keeps_first_membership :
    1 ∈ roomMembers (run [.connect 1,
        .message 1 ⟨.joinRoom, some "a", none, none⟩,
        .message 1 ⟨.joinRoom, some "b", none, none⟩]) "a" ∧
    1 ∈ roomMembers (run [.connect 1,
        .message 1 ⟨.joinRoom, some "a", none, none⟩,
        .message 1 ⟨.joinRoom, some "b", none, none⟩]) "b" ∧
    "a" ≠ "b" := by
  decide

/-- Claim C2 (amended): on every trace in which no `join-room` is
processed for a connection that is still a member of a different room's
set, every reachable state keeps each connection in at most one room's
membership set.  (Unrestricted, the claim fails: see the
counterexample.) -/
theorem atMostOneRoom_of_safeRun (es : List Event)
    (h : safeRun initialServer es = true) : atMostOneRoomL (run es).rooms := by
  refine atMostOneRoomL_runFrom es initialServer ?_ h
  intro c r₁ r₂ l₁ l₂ h₁ h₂ m₁ m₂
  simp [initialServer, roomGet] at h₁

/-- Witness for the amended claim C2 on the trace join "a", leave,
join "b". -/
theorem atMostOneRoom_of_safeRun_witness :
    safeRun initialServer [.connect 1,
      .message 1 ⟨.joinRoom, some "a", none, none⟩,
      .message 1 ⟨.leaveRoom, none, none, none⟩,
      .message 1 ⟨.joinRoom, some "b", none, none⟩] = true ∧
    atMostOneRoomL (run [.connect 1,
      .message 1 ⟨.joinRoom, some "a", none, none⟩,
      .message 1 ⟨.leaveRoom, none, none, none⟩,
      .message 1 ⟨.joinRoom, some "b", none, none⟩]).rooms :=
  ⟨by decide, atMostOneRoom_of_safeRun _ (by decide)⟩

/-- Claim C7, counterexample: `insertBroadcastSchema` omits only `id` and
`createdAt`, so a create request may carry `isActive`/`listenerCount`,
and `createBroadcast` honors them (`?? true` / `?? 0` only fill absent
fields): the record created from a request with `isActive: false,
listenerCount: 5` has exactly those values. -/
theorem createBroadcast_honors_supplied_fields :
    (MemStorage.empty.createBroadcast ⟨"r1", "t", some false, some 5, none⟩ 0).1.isActive
      = false ∧
    (MemStorage.empty.createBroadcast ⟨"r1", "t", some false, some 5, none⟩ 0).1.listenerCount
      = 5 := by
  decide

/-- Claim C7 (amended): a created broadcast has `isActive = true` and
`listenerCount = 0` whenever the request omits those two fields; supplied
values are taken over verbatim (see the counterexample). -/
theorem createBroadcast_defaults (s : MemStorage) (ib : InsertBroadcast) (now : Nat)
    (ha : ib.isActive = none) (hl : ib.listenerCount = none) :
    (s.createBroadcast ib now).1.isActive = true ∧
    (s.createBroadcast ib now).1.listenerCount = 0 := by
  simp [MemStorage.createBroadcast, ha, hl]

/-- Witness for the amended claim C7. -/
theorem createBroadcast_defaults_witness :
    (⟨"r1", "t", none, none, none⟩ : InsertBroadcast).isActive = none ∧
    (MemStorage.empty.createBroadcast ⟨"r1", "t", none, none, none⟩ 0).1.isActive = true ∧
    (MemStorage.empty.createBroadcast ⟨"r1", "t", none, none, none⟩ 0).1.listenerCount = 0 :=
  ⟨rfl,
    (createBroadcast_defaults MemStorage.empty ⟨"r1", "t", none, none, none⟩ 0 rfl rfl).1,
    (createBroadcast_defaults MemStorage.empty ⟨"r1", "t", none, none, none⟩ 0 rfl rfl).2⟩

/-- Claim C8, counterexample: `updateBroadcast` merges `{ ...broadcast,
...updates }` and the PATCH route feeds it the raw request body, so a
body containing `id: 99` rewrites the stored record's `id` field: after
patching the broadcast stored under key 1, the record at key 1 carries
`id = 99`. -/
theorem updateBroadcast_id_field_overwrites_id :
    ((MemStorage.empty.createBroadcast ⟨"abc123", "t", none, none, none⟩ 0).2.getBroadcast
        1).map Broadcast.id = some 1 ∧
    (((MemStorage.empty.createBroadcast ⟨"abc123", "t", none, none, none⟩ 0).2.updateBroadcast
        1 { BroadcastPatch.empty with id := some 99 }).2.getBroadcast 1).map Broadcast.id
      = some 99 := by
  decide

/-- Claim C8 (amended): `updateBroadcast` preserves the record's `id`
provided the supplied partial itself contains no `id` field: the merged
record — both the one returned and the one stored back under the key —
keeps the original id. -/
theorem updateBroadcast_preserves_id (s : MemStorage) (id : Nat) (p : BroadcastPatch)
    (b : Broadcast) (hp : p.id = none) (hb : mapGet s.broadcasts id = some b) :
    (s.updateBroadcast id p).1 = some (applyPatch b p) ∧
    (applyPatch b p).id = b.id ∧
    (s.updateBroadcast id p).2.getBroadcast id = some (applyPatch b p) := by
  refine ⟨?_, ?_, ?_⟩
  · simp [MemStorage.updateBroadcast, hb]
  · simp [applyPatch, hp]
  · simp [MemStorage.updateBroadcast, hb, MemStorage.getBroadcast, mapGet_mapSet_same]

/-- Witness for the amended claim C8. -/
theorem updateBroadcast_preserves_id_witness :
    ({ BroadcastPatch.empty with title := some "new" } : BroadcastPatch).id = none ∧
    mapGet (MemStorage.empty.createBroadcast ⟨"abc123", "t", none, none, none⟩ 0).2.broadcasts
      1 = some ⟨1, "abc123", "t", true, 0, "high", 0⟩ ∧
    ((MemStorage.empty.createBroadcast ⟨"abc123", "t", none, none, none⟩ 0).2.updateBroadcast
        1 { BroadcastPatch.empty with title := some "new" }).1 =
      some (applyPatch ⟨1, "abc123", "t", true, 0, "high", 0⟩
        { BroadcastPatch.empty with title := some "new" }) ∧
    (applyPatch ⟨1, "abc123", "t", true, 0, "high", 0⟩
        { BroadcastPatch.empty with title := some "new" }).id = 1 :=
  ⟨rfl, by decide,
    (updateBroadcast_preserves_id
      (MemStorage.empty.createBroadcast ⟨"abc123", "t", none, none, none⟩ 0).2 1
      { BroadcastPatch.empty with title := some "new" }
      ⟨1, "abc123", "t", true, 0, "high", 0⟩ rfl (by decide)).1,
    (updateBroadcast_preserves_id
      (MemStorage.empty.createBroadcast ⟨"abc123", "t", none, none, none⟩ 0).2 1
      { BroadcastPatch.empty with title := some "new" }
      ⟨1, "abc123", "t", true, 0, "high", 0⟩ rfl (by decide)).2.1⟩

/-- Claim C10: a `join-room` for a roomId with no Broadcast record still
adds the connection to that room's membership set and records the roomId
on the session, while the storage is left entirely unchanged and no
message at all is sent. -/
theorem join_unknown_room_frame (s : ServerState) (c : Nat) (rid : String)
    (d : Option MsgData) (sid : Option String) (hne : rid ≠ "")
    (hb : s.storage.getBroadcastByRoomId rid = none) :
    c ∈ roomMembers (step s (.message c ⟨.joinRoom, some rid, d, sid⟩)).1 rid ∧
    sessGet (step s (.message c ⟨.joinRoom, some rid, d, sid⟩)).1.sessions c = some rid ∧
    (step s (.message c ⟨.joinRoom, some rid, d, sid⟩)).1.storage = s.storage ∧
    (step s (.message c ⟨.joinRoom, some rid, d, sid⟩)).2 = [] := by
  have hd : step s (.message c ⟨.joinRoom, some rid, d, sid⟩) =
      joinRoomCase s c ⟨.joinRoom, some rid, d, sid⟩ := rfl
  rw [hd, joinRoomCase_notfound hne hb]
  refine ⟨?_, sessGet_sessSet_same _ _ _, rfl, rfl⟩
  show c ∈ (roomGet (roomsJoin s.rooms rid c) rid).getD []
  rw [roomGet_roomsJoin_same]
  exact setAdd_mem_self

/-- Claim C5, counterexample: membership does not imply delivery.  After
connection 2 joins room "a", then joins room "b" and its socket closes,
2 is still a member of "a"'s set (the close removed it only from "b")
but its socket is no longer open, so an `offer` sent by 1 in room "a" is
delivered to nobody — not to "every other member of R". -/
theorem signal_skips_closed_member :
    sessGet (run [.connect 1, .connect 2,
        .message 1 ⟨.joinRoom, some "a", none, none⟩,
        .message 2 ⟨.joinRoom, some "a", none, none⟩,
        .message 2 ⟨.joinRoom, some "b", none, none⟩,
        .close 2]).sessions 1 = some "a" ∧
    2 ∈ roomMembers (run [.connect 1, .connect 2,
        .message 1 ⟨.joinRoom, some "a", none, none⟩,
        .message 2 ⟨.joinRoom, some "a", none, none⟩,
        .message 2 ⟨.joinRoom, some "b", none, none⟩,
        .close 2]) "a" ∧
    (2 : Nat) ≠ 1 ∧
    (step (run [.connect 1, .connect 2,
        .message 1 ⟨.joinRoom, some "a", none, none⟩,
        .message 2 ⟨.joinRoom, some "a", none, none⟩,
        .message 2 ⟨.joinRoom, some "b", none, none⟩,
        .close 2]) (.message 1 ⟨.offer, none, some (.blob "sdp"), none⟩)).2 = [] := by
  decide

/-- Claim C5 (amended): an `offer`/`answer`/`ice-candidate` from a
connection joined to room R is delivered, with the parsed message
unmodified, to every *open* member of R other than the sender; nothing
is ever sent back to the sender, every send carries the message
verbatim, and the relay state is unchanged. -/
theorem signal_fanout (s : ServerState) (c : Nat) (m : WsMessage) (rid : String)
    (ht : m.type = .offer ∨ m.type = .answer ∨ m.type = .iceCandidate)
    (hs : sessGet s.sessions c = some rid) (hne : rid ≠ "") :
    (∀ x, x ∈ roomMembers s rid → x ≠ c → isOpen s x = true →
      (x, m) ∈ (step s (.message c m)).2) ∧
    (∀ p ∈ (step s (.message c m)).2, p.1 ≠ c ∧ p.2 = m) ∧
    (step s (.message c m)).1 = s := by
  have hsig : step s (.message c m) = signalCase s c m := by
    obtain ⟨ty, rI, d, sid⟩ := m
    rcases ht with h | h | h <;> (cases h; rfl)
  rw [hsig]
  refine ⟨?_, ?_, signalCase_state s c m⟩
  · intro x hx hxc ho
    rw [signalCase_sends m hs hne]
    exact broadcastToRoom_mem m c hx hxc ho
  · intro p hp
    rw [signalCase_sends m hs hne] at hp
    exact ⟨(broadcastToRoom_sound hp).1, (broadcastToRoom_sound hp).2.1⟩

/-- Witness for the amended claim C5: in a two-member room, 1's offer is
delivered to 2 and to nobody else. -/
theorem signal_fanout_witness :
    ((⟨.offer, none, some (.blob "sdp"), none⟩ : WsMessage).type = .offer ∨
      (⟨.offer, none, some (.blob "sdp"), none⟩ : WsMessage).type = .answer ∨
      (⟨.offer, none, some (.blob "sdp"), none⟩ : WsMessage).type = .iceCandidate) ∧
    sessGet (run [.connect 1, .connect 2,
        .message 1 ⟨.joinRoom, some "a", none, none⟩,
        .message 2 ⟨.joinRoom, some "a", none, none⟩]).sessions 1 = some "a" ∧
    ("a" : String) ≠ "" ∧
    (∀ x, x ∈ roomMembers (run [.connect 1, .connect 2,
          .message 1 ⟨.joinRoom, some "a", none, none⟩,
          .message 2 ⟨.joinRoom, some "a", none, none⟩]) "a" → x ≠ 1 →
        isOpen (run [.connect 1, .connect 2,
          .message 1 ⟨.joinRoom, some "a", none, none⟩,
          .message 2 ⟨.joinRoom, some "a", none, none⟩]) x = true →
        (x, (⟨.offer, none, some (.blob "sdp"), none⟩ : WsMessage)) ∈
          (step (run [.connect 1, .connect 2,
            .message 1 ⟨.joinRoom, some "a", none, none⟩,
            .message 2 ⟨.joinRoom, some "a", none, none⟩])
            (.message 1 ⟨.offer, none, some (.blob "sdp"), none⟩)).2) :=
  ⟨Or.inl rfl, by decide, by decide,
    (signal_fanout (run [.connect 1, .connect 2,
        .message 1 ⟨.joinRoom, some "a", none, none⟩,
        .message 2 ⟨.joinRoom, some "a", none, none⟩]) 1
      ⟨.offer, none, some (.blob "sdp"), none⟩ "a" (Or.inl rfl) (by decide)
      (by decide)).1⟩

/-- Claim C6, counterexample: after connection 2 leaves room "a", its
session roomId is *not* cleared (it still reads `"a"`), 2 is no longer a
member of the set, and a subsequent `offer` from the still-open
connection 2 *is* forwarded into room "a" — connection 1 receives it. -/
theorem leave_retains_roomId_and_forwards :
    sessGet (run [.connect 1, .connect 2,
        .message 1 ⟨.joinRoom, some "a", none, none⟩,
        .message 2 ⟨.joinRoom, some "a", none, none⟩,
        .message 2 ⟨.leaveRoom, none, none, none⟩]).sessions 2 = some "a" ∧
    2 ∉ roomMembers (run [.connect 1, .connect 2,
        .message 1 ⟨.joinRoom, some "a", none, none⟩,
        .message 2 ⟨.joinRoom, some "a", none, none⟩,
        .message 2 ⟨.leaveRoom, none, none, none⟩]) "a" ∧
    (step (run [.connect 1, .connect 2,
        .message 1 ⟨.joinRoom, some "a", none, none⟩,
        .message 2 ⟨.joinRoom, some "a", none, none⟩,
        .message 2 ⟨.leaveRoom, none, none, none⟩])
      (.message 2 ⟨.offer, none, some (.blob "sdp"), none⟩)).2 =
      [(1, ⟨.offer, none, some (.blob "sdp"), none⟩)] := by
  decide

/-- Claim C6 (amended): neither the `leave-room` handler nor the close
handler clears the session roomId — after either, the session still
reads the left room's id, and a subsequent signaling message from the
same still-open connection is forwarded to every remaining open member
of the room it left. -/
theorem leave_keeps_session_roomId (s : ServerState) (c : Nat) (rid : String)
    (rI : Option String) (d : Option MsgData) (sid : Option String) (m : WsMessage)
    (hs : sessGet s.sessions c = some rid) (hne : rid ≠ "")
    (ht : m.type = .offer ∨ m.type = .answer ∨ m.type = .iceCandidate) :
    sessGet (step s (.message c ⟨.leaveRoom, rI, d, sid⟩)).1.sessions c = some rid ∧
    sessGet (step s (.close c)).1.sessions c = some rid ∧
    (∀ x, x ∈ roomMembers (step s (.message c ⟨.leaveRoom, rI, d, sid⟩)).1 rid → x ≠ c →
      isOpen (step s (.message c ⟨.leaveRoom, rI, d, sid⟩)).1 x = true →
      (x, m) ∈ (step (step s (.message c ⟨.leaveRoom, rI, d, sid⟩)).1 (.message c m)).2) := by
  have hd1 : step s (.message c ⟨.leaveRoom, rI, d, sid⟩) = leaveRoomCase s c := rfl
  have hd2 : step s (.close c) =
      closeCase { s with openConns := s.openConns.erase c } c := rfl
  have hs1 : sessGet (step s (.message c ⟨.leaveRoom, rI, d, sid⟩)).1.sessions c
      = some rid := by
    rw [hd1, leaveRoomCase_sessions]
    exact hs
  refine ⟨hs1, ?_, ?_⟩
  · rw [hd2, closeCase_sessions]
    exact hs
  · intro x hx hxc ho
    have hsig : step (step s (.message c ⟨.leaveRoom, rI, d, sid⟩)).1 (.message c m) =
        signalCase (step s (.message c ⟨.leaveRoom, rI, d, sid⟩)).1 c m := by
      obtain ⟨ty, rI2, d2, sid2⟩ := m
      rcases ht with h | h | h <;> (cases h; rfl)
    rw [hsig, signalCase_sends m hs1 hne]
    exact broadcastToRoom_mem m c hx hxc ho

/-- Witness for the amended claim C6. -/
theorem leave_keeps_session_roomId_witness :
    sessGet (run [.connect 1, .connect 2,
        .message 1 ⟨.joinRoom, some "a", none, none⟩,
        .message 2 ⟨.joinRoom, some "a", none, none⟩]).sessions 2 = some "a" ∧
    sessGet (step (run [.connect 1, .connect 2,
        .message 1 ⟨.joinRoom, some "a", none, none⟩,
        .message 2 ⟨.joinRoom, some "a", none, none⟩])
      (.message 2 ⟨.leaveRoom, none, none, none⟩)).1.sessions 2 = some "a" ∧
    sessGet (step (run [.connect 1, .connect 2,
        .message 1 ⟨.joinRoom, some "a", none, none⟩,
        .message 2 ⟨.joinRoom, some "a", none, none⟩]) (.close 2)).1.sessions 2 = some "a" :=
  ⟨by decide,
    (leave_keeps_session_roomId (run [.connect 1, .connect 2,
        .message 1 ⟨.joinRoom, some "a", none, none⟩,
        .message 2 ⟨.joinRoom, some "a", none, none⟩]) 2 "a" none none none
      ⟨.offer, none, some (.blob "sdp"), none⟩ (by decide) (by decide) (Or.inl rfl)).1,
    (leave_keeps_session_roomId (run [.connect 1, .connect 2,
        .message 1 ⟨.joinRoom, some "a", none, none⟩,
        .message 2 ⟨.joinRoom, some "a", none, none⟩]) 2 "a" none none none
      ⟨.offer, none, some (.blob "sdp"), none⟩ (by decide) (by decide) (Or.inl rfl)).2.1⟩

/-- Claim C3: after one `join-room`, `leave-room` or socket-closure event
concerning room `rid` is handled, if the registry held a broadcast for
`rid` then the broadcast record found for `rid` afterwards carries
`listenerCount` equal to the size of `rid`'s membership set.  The state
hypotheses (`sessionsHaveRooms`, `storageOk`) hold in every state of
normal operation: joins create the room entries sessions point at, and
only a PATCH body carrying an `id` field can break the storage keying. -/
theorem listenerCount_eq_roomSize (s : ServerState) (e : Event) (rid : String)
    (b : Broadcast)
    (hsr : sessionsHaveRooms s = true) (hok : storageOk s.storage = true)
    (her : eventRoom s e = some rid)
    (hb : s.storage.getBroadcastByRoomId rid = some b) :
    (step s e).1.storage.getBroadcastByRoomId rid =
      some { b with listenerCount := (roomMembers (step s e).1 rid).length } := by
  have hnd : keysNodup s.storage.broadcasts = true := by
    simp only [storageOk, Bool.and_eq_true] at hok
    exact hok.1
  have hwk : wellKeyed s.storage.broadcasts = true := by
    simp only [storageOk, Bool.and_eq_true] at hok
    exact hok.2
  cases e with
  | connect c => simp [eventRoom] at her
  | create ib now => simp [eventRoom] at her
  | message c m =>
    obtain ⟨ty, rI, d, sid⟩ := m
    cases ty with
    | joinRoom =>
      cases rI with
      | none => simp [eventRoom] at her
      | some rid' =>
        by_cases hne : rid' = ""
        · simp [eventRoom, hne] at her
        · simp only [eventRoom, if_neg hne, Option.some.injEq] at her
          subst her
          have hd : step s (.message c ⟨.joinRoom, some rid', d, sid⟩) =
              joinRoomCase s c ⟨.joinRoom, some rid', d, sid⟩ := rfl
          rw [hd, joinRoomCase_found hne hb]
          exact findByRoomId_updCount_ok _ hnd hwk hb
    | leaveRoom =>
      cases hg : sessGet s.sessions c with
      | none => simp [eventRoom, hg] at her
      | some rid' =>
        by_cases hne : rid' = ""
        · simp [eventRoom, hg, hne] at her
        · simp only [eventRoom, hg, if_neg hne, Option.some.injEq] at her
          subst her
          have hr : hasRoom s.rooms rid' = true := by
            have := (List.all_eq_true.mp hsr) (c, rid') (sessGet_mem hg)
            simpa using this
          have hd : step s (.message c ⟨.leaveRoom, rI, d, sid⟩) = leaveRoomCase s c := rfl
          rw [hd, leaveRoomCase_found hg hne hr hb]
          exact findByRoomId_updCount_ok _ hnd hwk hb
    | offer => simp [eventRoom] at her
    | answer => simp [eventRoom] at her
    | iceCandidate => simp [eventRoom] at her
    | roomUpdate => simp [eventRoom] at her
  | close c =>
    cases hg : sessGet s.sessions c with
    | none => simp [eventRoom, hg] at her
    | some rid' =>
      by_cases hne : rid' = ""
      · simp [eventRoom, hg, hne] at her
      · simp only [eventRoom, hg, if_neg hne, Option.some.injEq] at her
        subst her
        have hr : hasRoom s.rooms rid' = true := by
          have := (List.all_eq_true.mp hsr) (c, rid') (sessGet_mem hg)
          simpa using this
        have hd : step s (.close c) =
            closeCase { s with openConns := s.openConns.erase c } c := rfl
        rw [hd,
          closeCase_found (s := { s with openConns := s.openConns.erase c }) hg hne hr hb]
        exact findByRoomId_updCount_ok _ hnd hwk hb

/-- Witness for claim C3: second listener joins room "abc" that has a
broadcast; afterwards the record's count equals the set size. -/
theorem listenerCount_eq_roomSize_witness :
    sessionsHaveRooms (run [.create ⟨"abc", "t", none, none, none⟩ 0, .connect 1,
      .message 1 ⟨.joinRoom, some "abc", none, none⟩, .connect 2]) = true ∧
    storageOk (run [.create ⟨"abc", "t", none, none, none⟩ 0, .connect 1,
      .message 1 ⟨.joinRoom, some "abc", none, none⟩, .connect 2]).storage = true ∧
    eventRoom (run [.create ⟨"abc", "t", none, none, none⟩ 0, .connect 1,
        .message 1 ⟨.joinRoom, some "abc", none, none⟩, .connect 2])
      (.message 2 ⟨.joinRoom, some "abc", none, none⟩) = some "abc" ∧
    (run [.create ⟨"abc", "t", none, none, none⟩ 0, .connect 1,
        .message 1 ⟨.joinRoom, some "abc", none, none⟩,
        .connect 2]).storage.getBroadcastByRoomId "abc"
      = some ⟨1, "abc", "t", true, 1, "high", 0⟩ ∧
    (step (run [.create ⟨"abc", "t", none, none, none⟩ 0, .connect 1,
        .message 1 ⟨.joinRoom, some "abc", none, none⟩, .connect 2])
        (.message 2 ⟨.joinRoom, some "abc", none, none⟩)).1.storage.getBroadcastByRoomId
        "abc" =
      some { (⟨1, "abc", "t", true, 1, "high", 0⟩ : Broadcast) with
        listenerCount := (roomMembers (step (run [.create ⟨"abc", "t", none, none, none⟩ 0,
          .connect 1, .message 1 ⟨.joinRoom, some "abc", none, none⟩, .connect 2])
          (.message 2 ⟨.joinRoom, some "abc", none, none⟩)).1 "abc").length } :=
  ⟨by decide, by decide, by decide, by decide,
    listenerCount_eq_roomSize
      (run [.create ⟨"abc", "t", none, none, none⟩ 0, .connect 1,
        .message 1 ⟨.joinRoom, some "abc", none, none⟩, .connect 2])
      (.message 2 ⟨.joinRoom, some "abc", none, none⟩) "abc"
      ⟨1, "abc", "t", true, 1, "high", 0⟩ (by decide) (by decide) (by decide) (by decide)⟩

/-- Claim C4: a socket closure of connection `c` has exactly the same
effect as an explicit `leave-room` from `c` on the rooms table, the
storage, the session table, and the emitted `room-update` sends (the two
handler bodies are textually identical in the source; the only extra
effect of closure is that `c`'s socket leaves the OPEN state, which no
remaining recipient depends on since `c` was just removed from the
set). -/
theorem close_matches_leave_effects (s : ServerState) (c : Nat)
    (rI : Option String) (d : Option MsgData) (sid : Option String)
    (hnd : roomSetsNodup s.rooms = true) :
    (step s (.close c)).1.rooms = (step s (.message c ⟨.leaveRoom, rI, d, sid⟩)).1.rooms ∧
    (step s (.close c)).1.storage
      = (step s (.message c ⟨.leaveRoom, rI, d, sid⟩)).1.storage ∧
    (step s (.close c)).1.sessions
      = (step s (.message c ⟨.leaveRoom, rI, d, sid⟩)).1.sessions ∧
    (step s (.close c)).2 = (step s (.message c ⟨.leaveRoom, rI, d, sid⟩)).2 := by
  have hd1 : step s (.message c ⟨.leaveRoom, rI, d, sid⟩) = leaveRoomCase s c := rfl
  have hd2 : step s (.close c) =
      closeCase { s with openConns := s.openConns.erase c } c := rfl
  rw [hd1, hd2]
  cases hg : sessGet s.sessions c with
  | none =>
    rw [leaveRoomCase_nosess hg,
      closeCase_nosess (s := { s with openConns := s.openConns.erase c }) hg]
    exact ⟨rfl, rfl, rfl, rfl⟩
  | some rid =>
    by_cases hne : rid = ""
    · subst hne
      rw [show leaveRoomCase s c = (s, []) from by
          simp only [leaveRoomCase]; rw [hg]; simp,
        show closeCase { s with openConns := s.openConns.erase c } c =
            ({ s with openConns := s.openConns.erase c }, []) from by
          simp only [closeCase]; rw [hg]; simp]
      exact ⟨rfl, rfl, rfl, rfl⟩
    · by_cases hr : hasRoom s.rooms rid = true
      · cases hb : s.storage.getBroadcastByRoomId rid with
        | none =>
          rw [leaveRoomCase_notfound hg hne hr hb,
            closeCase_notfound (s := { s with openConns := s.openConns.erase c })
              hg hne hr hb]
          exact ⟨rfl, rfl, rfl, rfl⟩
        | some b =>
          rw [leaveRoomCase_found hg hne hr hb,
            closeCase_found (s := { s with openConns := s.openConns.erase c })
              hg hne hr hb]
          refine ⟨rfl, rfl, rfl, ?_⟩
          refine broadcastToRoom_congr_open _ _ _ _ _ rfl ?_
          intro x hx
          rcases Option.isSome_iff_exists.mp (hasRoom_iff.mp hr) with ⟨l, hl⟩
          have hmem : x ∈ l.erase c := by
            have hx' : x ∈ (roomGet (roomsRemove s.rooms rid c) rid).getD [] := hx
            rw [roomGet_roomsRemove_same, hl] at hx'
            exact hx'
          have hxc : x ≠ c := ((roomSetsNodup_get hnd hl).mem_erase_iff.mp hmem).1
          show ((s.openConns.erase c).contains x) = (s.openConns.contains x)
          exact contains_erase_ne hxc
      · rw [leaveRoomCase_noroom hg hne (by simpa using hr),
          closeCase_noroom (s := { s with openConns := s.openConns.erase c }) hg hne
            (by simpa using hr)]
        exact ⟨rfl, rfl, rfl, rfl⟩

/-- Witness for claim C4: closing listener 2 matches 2's leave-room. -/
theorem close_matches_leave_effects_witness :
    roomSetsNodup (run [.create ⟨"abc", "t", none, none, none⟩ 0, .connect 1, .connect 2,
      .message 1 ⟨.joinRoom, some "abc", none, none⟩,
      .message 2 ⟨.joinRoom, some "abc", none, none⟩]).rooms = true ∧
    ((step (run [.create ⟨"abc", "t", none, none, none⟩ 0, .connect 1, .connect 2,
        .message 1 ⟨.joinRoom, some "abc", none, none⟩,
        .message 2 ⟨.joinRoom, some "abc", none, none⟩]) (.close 2)).1.rooms =
      (step (run [.create ⟨"abc", "t", none, none, none⟩ 0, .connect 1, .connect 2,
        .message 1 ⟨.joinRoom, some "abc", none, none⟩,
        .message 2 ⟨.joinRoom, some "abc", none, none⟩])
        (.message 2 ⟨.leaveRoom, none, none, none⟩)).1.rooms ∧
     (step (run [.create ⟨"abc", "t", none, none, none⟩ 0, .connect 1, .connect 2,
        .message 1 ⟨.joinRoom, some "abc", none, none⟩,
        .message 2 ⟨.joinRoom, some "abc", none, none⟩]) (.close 2)).1.storage =
      (step (run [.create ⟨"abc", "t", none, none, none⟩ 0, .connect 1, .connect 2,
        .message 1 ⟨.joinRoom, some "abc", none, none⟩,
        .message 2 ⟨.joinRoom, some "abc", none, none⟩])
        (.message 2 ⟨.leaveRoom, none, none, none⟩)).1.storage ∧
     (step (run [.create ⟨"abc", "t", none, none, none⟩ 0, .connect 1, .connect 2,
        .message 1 ⟨.joinRoom, some "abc", none, none⟩,
        .message 2 ⟨.joinRoom, some "abc", none, none⟩]) (.close 2)).1.sessions =
      (step (run [.create ⟨"abc", "t", none, none, none⟩ 0, .connect 1, .connect 2,
        .message 1 ⟨.joinRoom, some "abc", none, none⟩,
        .message 2 ⟨.joinRoom, some "abc", none, none⟩])
        (.message 2 ⟨.leaveRoom, none, none, none⟩)).1.sessions ∧
     (step (run [.create ⟨"abc", "t", none, none, none⟩ 0, .connect 1, .connect 2,
        .message 1 ⟨.joinRoom, some "abc", none, none⟩,
        .message 2 ⟨.joinRoom, some "abc", none, none⟩]) (.close 2)).2 =
      (step (run [.create ⟨"abc", "t", none, none, none⟩ 0, .connect 1, .connect 2,
        .message 1 ⟨.joinRoom, some "abc", none, none⟩,
        .message 2 ⟨.joinRoom, some "abc", none, none⟩])
        (.message 2 ⟨.leaveRoom, none, none, none⟩)).2) :=
  ⟨by decide,
    close_matches_leave_effects
      (run [.create ⟨"abc", "t", none, none, none⟩ 0, .connect 1, .connect 2,
        .message 1 ⟨.joinRoom, some "abc", none, none⟩,
        .message 2 ⟨.joinRoom, some "abc", none, none⟩]) 2 none none none (by decide)⟩

/-- Claim C9: processing the same `join-room` twice in a row is
observationally idempotent — the second processing produces exactly the
same state *and* the same sends as the first (JS `Set.add` is a no-op on
a member, the recomputed listener count is unchanged, and the repeated
`room-update` announcement is identical), so `size(roomId)` never counts
the connection twice. -/
theorem join_room_idempotent (s : ServerState) (c : Nat) (rI : Option String)
    (d : Option MsgData) (sid : Option String) :
    step (step s (.message c ⟨.joinRoom, rI, d, sid⟩)).1 (.message c ⟨.joinRoom, rI, d, sid⟩)
      = step s (.message c ⟨.joinRoom, rI, d, sid⟩) := by
  cases rI with
  | none => rfl
  | some rid =>
    by_cases hne : rid = ""
    · subst hne
      rfl
    · have hd : ∀ t : ServerState,
          step t (.message c ⟨.joinRoom, some rid, d, sid⟩) =
            joinRoomCase t c ⟨.joinRoom, some rid, d, sid⟩ := fun _ => rfl
      rw [hd, hd]
      cases hb : s.storage.getBroadcastByRoomId rid with
      | none =>
        rw [joinRoomCase_notfound hne hb]
        have hb1 : ({ s with
            sessions := sessSet s.sessions c rid,
            rooms := roomsJoin s.rooms rid c } :
            ServerState).storage.getBroadcastByRoomId rid = none := hb
        show joinRoomCase { s with
            sessions := sessSet s.sessions c rid,
            rooms := roomsJoin s.rooms rid c } c ⟨.joinRoom, some rid, d, sid⟩ = _
        rw [joinRoomCase_notfound hne hb1]
        simp [sessSet_idem, roomsJoin_idem]
      | some b =>
        rw [joinRoomCase_found hne hb]
        show joinRoomCase { s with
            sessions := sessSet s.sessions c rid,
            rooms := roomsJoin s.rooms rid c,
            storage := s.storage.updateListenerCount b.id
              ((roomGet (roomsJoin s.rooms rid c) rid).getD []).length } c
            ⟨.joinRoom, some rid, d, sid⟩ = _
        rcases findByRoomId_updCount_general s.storage.broadcasts b.id
            ((roomGet (roomsJoin s.rooms rid c) rid).getD []).length hb with h2 | h2
        · have hb1 : ({ s with
              sessions := sessSet s.sessions c rid,
              rooms := roomsJoin s.rooms rid c,
              storage := s.storage.updateListenerCount b.id
                ((roomGet (roomsJoin s.rooms rid c) rid).getD []).length } :
              ServerState).storage.getBroadcastByRoomId rid = some b := h2
          rw [joinRoomCase_found hne hb1]
          simp [sessSet_idem, roomsJoin_idem, updateListenerCount_idem]
        · have hb1 : ({ s with
              sessions := sessSet s.sessions c rid,
              rooms := roomsJoin s.rooms rid c,
              storage := s.storage.updateListenerCount b.id
                ((roomGet (roomsJoin s.rooms rid c) rid).getD []).length } :
              ServerState).storage.getBroadcastByRoomId rid =
              some { b with listenerCount :=
                ((roomGet (roomsJoin s.rooms rid c) rid).getD []).length } := h2
          rw [joinRoomCase_found hne hb1]
          simp [sessSet_idem, roomsJoin_idem, updateListenerCount_idem]

/-- Witness for claim C10. -/
theorem join_unknown_room_frame_witness :
    ("a" : String) ≠ "" ∧
    initialServer.storage.getBroadcastByRoomId "a" = none ∧
    (1 ∈ roomMembers (step initialServer (.message 1 ⟨.joinRoom, some "a", none, none⟩)).1 "a" ∧
     sessGet (step initialServer (.message 1 ⟨.joinRoom, some "a", none, none⟩)).1.sessions 1
       = some "a" ∧
     (step initialServer (.message 1 ⟨.joinRoom, some "a", none, none⟩)).1.storage =
       initialServer.storage ∧
     (step initialServer (.message 1 ⟨.joinRoom, some "a", none, none⟩)).2 = []) :=
  ⟨by decide, rfl,
    join_unknown_room_frame initialServer 1 "a" none none (by decide) rfl⟩

end ZRadio
